import Mathlib

/-! Shallow embedding of the end-to-end-encryption core of the cloud-storage
repository: the key backup codec and HKDF master-key derivation of
src/lib/crypto.ts, and the encrypted manifest store with its mutation family
from src/lib/manifest.ts.

Modelling conventions:
* Byte strings are `List Nat`; hex decoding follows Buffer.from(hex), which
  stops at the first non-hex pair.
* Timestamps (ISO-8601 strings produced by Date.toISOString and compared via
  Date.getTime) are `Nat` millisecond counts; each `new Date()` reading enters
  as an explicit `now` parameter.
* AES-GCM and the KDFs are ideal: a ciphertext is a constructor remembering
  key, iv and plaintext, and decryption succeeds exactly on the matching key
  and iv (authenticated-encryption tag semantics); derived keys are
  constructors remembering their inputs, so distinct inputs give distinct keys.
* WebCrypto randomness is explicit: crypto.getRandomValues draws from an
  entropy pool `Gen`, crypto.randomUUID from a supply `Nat → String`.
* Thrown JS exceptions are `Except.error` with the thrown message; code whose
  failures are caught internally (syncManifest) is a total function.
* The sessionStorage mirror of the cache (saveToSessionCache and friends) is
  browser persistence outside the model; all claims concern states where the
  in-memory cache is populated, on which the code never consults it.
-/

/-- Value of one hex digit, as Buffer.from(hex) reads it (none on non-hex). -/
def hexDigitVal (c : Char) : Option Nat :=
  if '0' ≤ c ∧ c ≤ '9' then some (c.toNat - '0'.toNat)
  else if 'a' ≤ c ∧ c ≤ 'f' then some (c.toNat - 'a'.toNat + 10)
  else if 'A' ≤ c ∧ c ≤ 'F' then some (c.toNat - 'A'.toNat + 10)
  else none

/-- Decode hex pairs into bytes, stopping at the first invalid pair
(Buffer.from(s, "hex") semantics, truncating an odd trailing digit). -/
def hexBytesAux : List Char → List Nat
  | c1 :: c2 :: rest =>
    match hexDigitVal c1, hexDigitVal c2 with
    | some hi, some lo => (16 * hi + lo) :: hexBytesAux rest
    | _, _ => []
  | _ => []

/-- Buffer.from(privateKeyHex, "hex"). -/
def hexToBytes (s : String) : List Nat :=
  hexBytesAux s.toList

/-- Entropy pool backing crypto.getRandomValues. -/
abbrev Gen := List Nat

/-- crypto.getRandomValues: draw n bytes from the entropy pool. -/
def getRandomValues (n : Nat) (g : Gen) : List Nat × Gen :=
  (g.take n, g.drop n)

/-- JS truthiness of an optional string argument: undefined and "" are falsy,
every other string is truthy. -/
def truthyStr : Option String → Bool
  | none => false
  | some s => s != ""

/-- A PBKDF2-SHA256 (100,000 iterations) derived AES-256-GCM key, kept
symbolic in its password and salt. -/
inductive SymKey where
  | pbkdf2 (password : String) (salt : List Nat)
deriving DecidableEq

/-- The serialized key pair {privateKey, publicKey}: the plaintext sealed in a
password-protected backup. -/
structure KeyPairData where
  privateKey : String
  publicKey : String
deriving DecidableEq

/-- Ideal AES-256-GCM ciphertext over a serialized key pair. -/
structure BackupCipher where
  key : SymKey
  iv : List Nat
  plain : KeyPairData
deriving DecidableEq

/-- crypto.subtle.encrypt (AES-GCM) on the backup plaintext. -/
def aesGcmSeal (key : SymKey) (iv : List Nat) (plain : KeyPairData) : BackupCipher :=
  ⟨key, iv, plain⟩

/-- crypto.subtle.decrypt (AES-GCM): succeeds exactly when key and iv match
the ones the ciphertext was sealed under (tag check). -/
def aesGcmOpen (key : SymKey) (iv : List Nat) (c : BackupCipher) : Option KeyPairData :=
  if c.key = key ∧ c.iv = iv then some c.plain else none

/-- The JSON shapes importKeyPair distinguishes after JSON.parse: an encrypted
blob {encrypted:true, salt, iv, data}, a plaintext pair
{privateKey, publicKey}, or anything else. -/
inductive KeyData where
  | encBlob (salt iv : List Nat) (data : BackupCipher)
  | plainBlob (privateKey publicKey : String)
  | malformed
deriving DecidableEq

/-- Errors thrown by the backup codec: "Failed to decrypt keys. Wrong
password?" and "Invalid key file format". -/
inductive CryptoError where
  | wrongPassword
  | malformedBackup
deriving DecidableEq

/-- exportKeyPair from crypto.ts: with a truthy password, draw a fresh
16-byte salt and 12-byte iv, seal the serialized pair under the
PBKDF2-derived key; otherwise emit the pair in plaintext. -/
def exportKeyPair (privateKey publicKey : String) (password : Option String)
    (g : Gen) : KeyData × Gen :=
  if truthyStr password then
    let pw := password.getD ""
    let saltg := getRandomValues 16 g
    let ivg := getRandomValues 12 saltg.2
    (.encBlob saltg.1 ivg.1
       (aesGcmSeal (.pbkdf2 pw saltg.1) ivg.1 ⟨privateKey, publicKey⟩), ivg.2)
  else
    (.plainBlob privateKey publicKey, g)

/-- importKeyPair from crypto.ts. Branches exactly as the source:
keyData.encrypted && password first (decrypt, throwing the wrong-password
error on tag failure), then keyData.privateKey && keyData.publicKey (JS
truthiness, so empty strings fail the check), else the invalid-format error.
An encrypted blob with an absent or empty password falls through to the
invalid-format branch because it carries no privateKey/publicKey fields. -/
def importKeyPair (kd : KeyData) (password : Option String) :
    Except CryptoError KeyPairData :=
  match kd with
  | .encBlob salt iv data =>
    if truthyStr password then
      match aesGcmOpen (.pbkdf2 (password.getD "") salt) iv data with
      | some pair => .ok pair
      | none => .error .wrongPassword
    else
      .error .malformedBackup
  | .plainBlob sk pk =>
    if sk != "" && pk != "" then .ok ⟨sk, pk⟩ else .error .malformedBackup
  | .malformed => .error .malformedBackup

/-- An HKDF-SHA256 derived AES-256-GCM key, symbolic in its input keying
material, salt and info string. -/
inductive MKey where
  | hkdf (ikm : List Nat) (salt : List Nat) (info : String)
deriving DecidableEq

/-- deriveManifestKeyFromPrivateKey from crypto.ts: HKDF-SHA256 over the
decoded private key bytes with a fixed all-zero 16-byte salt and the fixed
context string "manifest-encryption". The function performs no
crypto.getRandomValues call, so the entropy pool passes through untouched. -/
def deriveManifestKeyFromPrivateKey (privateKeyHex : String) (g : Gen) :
    MKey × Gen :=
  (.hkdf (hexToBytes privateKeyHex) (List.replicate 16 0) "manifest-encryption", g)

/-- File entry stored in the manifest. The EncryptedFileInfo record itself
lives in e2ee.ts, which is not in the excerpt; the fields follow the spec's
FileEntry data model and the accesses manifest.ts performs: fileId, fileName,
size, mimeType, optional folderId, isFavorite, uploadedAt, and the per-file
key material sealing the content blob. -/
structure EncryptedFileInfo where
  fileId : String
  fileName : String
  size : Nat
  mimeType : String
  folderId : Option String
  isFavorite : Bool
  uploadedAt : Nat
  fileKey : List Nat
  fileNonce : List Nat
deriving DecidableEq

/-- Folder from manifest.ts. -/
structure Folder where
  id : String
  name : String
  parentId : Option String
  createdAt : Nat
  color : Option String
deriving DecidableEq

/-- Manifest from manifest.ts. -/
structure Manifest where
  version : Nat
  files : List EncryptedFileInfo
  folders : List Folder
  createdAt : Nat
  updatedAt : Nat
deriving DecidableEq

/-- Keys of the remote object storage: the fixed ".manifest.enc" document key
or a per-file content key "files/<id>". -/
inductive StoreKey where
  | manifestKey
  | fileKey (id : String)
deriving DecidableEq

/-- Stored blobs: opaque ciphertext bytes, or the sealed manifest document
(ideal AES-GCM over the JSON-encoded manifest, iv-prefixed). -/
inductive Blob where
  | raw (bytes : List Nat)
  | sealedManifest (key : MKey) (iv : List Nat) (m : Manifest)
deriving DecidableEq

/-- The remote store: uploadToStorage/downloadFromStorage address it by key. -/
abbrev Storage := StoreKey → Option Blob

/-- uploadToStorage: overwrite the blob at a key. -/
def storePut (sto : Storage) (k : StoreKey) (v : Blob) : Storage :=
  fun q => if q = k then some v else sto q

/-- encryptManifest from manifest.ts: seal the JSON-encoded manifest under
the master key with a fresh 12-byte iv, emitting iv-prefixed ciphertext. -/
def encryptManifest (m : Manifest) (masterKey : MKey) (iv : List Nat) : Blob :=
  .sealedManifest masterKey iv m

/-- decryptManifest from manifest.ts: AES-GCM open with the master key;
fails (rejected promise) on a tag mismatch or on bytes that are not a sealed
manifest. -/
def decryptManifest (b : Blob) (masterKey : MKey) : Option Manifest :=
  match b with
  | .sealedManifest k _ m => if k = masterKey then some m else none
  | .raw _ => none

/-- The module-level mutable state of manifest.ts: manifestCache and
masterKeyCache. -/
structure MState where
  manifestCache : Option Manifest
  masterKeyCache : Option MKey
deriving DecidableEq

/-- getManifest on a populated in-memory cache (the sessionStorage fallback
is outside the model; every claim concerns a populated cache). -/
def getManifest (st : MState) : Option Manifest :=
  st.manifestCache

/-- Comparator of getFilesFromManifest: uploadedAt descending, newest
first. -/
def newerFirst (a b : EncryptedFileInfo) : Prop :=
  b.uploadedAt ≤ a.uploadedAt

instance : DecidableRel newerFirst :=
  fun a b => Nat.decLe b.uploadedAt a.uploadedAt

/-- getFilesFromManifest: a freshly sorted copy of the cached manifest's
files (JS [...files].sort with a stable comparator sort), with the state
passed through to record that the cached manifest is not mutated. -/
def getFilesFromManifest (st : MState) : List EncryptedFileInfo × MState :=
  (match st.manifestCache with
   | none => []
   | some m => List.insertionSort newerFirst m.files, st)

/-- getFileFromManifest: first entry with the given fileId, else none. -/
def getFileFromManifest (st : MState) (fileId : String) : Option EncryptedFileInfo :=
  match st.manifestCache with
  | none => none
  | some m => m.files.find? (fun f => f.fileId == fileId)

/-- syncManifest from manifest.ts: with no cached key, warn and return null;
otherwise re-fetch (the `fetch` argument is the outcome of
downloadFromStorage) and decrypt with the cached key. The try/catch makes
the call total: on any failure it logs and returns null with the cached
state untouched; only on success does it replace manifestCache. -/
def syncManifest (st : MState) (fetch : Except Unit Blob) : Option Manifest × MState :=
  match st.masterKeyCache with
  | none => (none, st)
  | some key =>
    match fetch with
    | .error _ => (none, st)
    | .ok blob =>
      match decryptManifest blob key with
      | none => (none, st)
      | some m => (some m, { st with manifestCache := some m })

/-- Replace the first element satisfying p (the object Array.prototype.find
returns, which the source then mutates in place). -/
def updateFirst {α : Type} (p : α → Bool) (upd : α → α) : List α → List α
  | [] => []
  | x :: xs => if p x then upd x :: xs else x :: updateFirst p upd xs

/-- addFileToManifest: requires the unlocked cache, pushes the entry, stamps
updatedAt with the current time, seals and uploads the whole document. -/
def addFileToManifest (st : MState) (sto : Storage) (fileInfo : EncryptedFileInfo)
    (now : Nat) (iv : List Nat) : Except String (MState × Storage) :=
  match st.manifestCache, st.masterKeyCache with
  | some m, some key =>
    let m2 := { m with files := m.files ++ [fileInfo], updatedAt := now }
    .ok (⟨some m2, some key⟩, storePut sto .manifestKey (encryptManifest m2 key iv))
  | _, _ => .error "Manifest not unlocked"

/-- removeFileFromManifest: filter the entry out (no existence check), stamp
updatedAt, seal and upload. -/
def removeFileFromManifest (st : MState) (sto : Storage) (fileId : String)
    (now : Nat) (iv : List Nat) : Except String (MState × Storage) :=
  match st.manifestCache, st.masterKeyCache with
  | some m, some key =>
    let m2 := { m with
      files := m.files.filter (fun f => f.fileId != fileId)
      updatedAt := now }
    .ok (⟨some m2, some key⟩, storePut sto .manifestKey (encryptManifest m2 key iv))
  | _, _ => .error "Manifest not unlocked"

/-- toggleFileFavorite: find the entry (throwing when absent), flip
isFavorite on it, stamp updatedAt, seal and upload, return the new flag. -/
def toggleFileFavorite (st : MState) (sto : Storage) (fileId : String)
    (now : Nat) (iv : List Nat) : Except String (MState × Storage × Bool) :=
  match st.manifestCache, st.masterKeyCache with
  | some m, some key =>
    match m.files.find? (fun f => f.fileId == fileId) with
    | none => .error "File not found"
    | some file =>
      let m2 := { m with
        files := updateFirst (fun f => f.fileId == fileId)
          (fun f => { f with isFavorite := !f.isFavorite }) m.files
        updatedAt := now }
      .ok (⟨some m2, some key⟩,
           storePut sto .manifestKey (encryptManifest m2 key iv),
           !file.isFavorite)
  | _, _ => .error "Manifest not unlocked"

/-- createFolder: build the folder with a fresh random UUID and the current
time, push it, stamp updatedAt, seal and upload, return the folder. -/
def createFolder (st : MState) (sto : Storage) (name : String)
    (parentId color : Option String) (now : Nat) (iv : List Nat)
    (uuid : Nat → String) : Except String (MState × Storage × Folder) :=
  match st.manifestCache, st.masterKeyCache with
  | some m, some key =>
    let folder : Folder := ⟨uuid 0, name, parentId, now, color⟩
    let m2 := { m with folders := m.folders ++ [folder], updatedAt := now }
    .ok (⟨some m2, some key⟩, storePut sto .manifestKey (encryptManifest m2 key iv),
         folder)
  | _, _ => .error "Manifest not unlocked"

/-- renameFolder: find the folder (throwing when absent), set its name,
stamp updatedAt, seal and upload. -/
def renameFolder (st : MState) (sto : Storage) (folderId newName : String)
    (now : Nat) (iv : List Nat) : Except String (MState × Storage) :=
  match st.manifestCache, st.masterKeyCache with
  | some m, some key =>
    match m.folders.find? (fun f => f.id == folderId) with
    | none => .error "Folder not found"
    | some _ =>
      let m2 := { m with
        folders := updateFirst (fun f => f.id == folderId)
          (fun f => { f with name := newName }) m.folders
        updatedAt := now }
      .ok (⟨some m2, some key⟩, storePut sto .manifestKey (encryptManifest m2 key iv))
  | _, _ => .error "Manifest not unlocked"

/-- renameFile: find the entry (throwing when absent), set its fileName,
stamp updatedAt, seal and upload. -/
def renameFile (st : MState) (sto : Storage) (fileId newName : String)
    (now : Nat) (iv : List Nat) : Except String (MState × Storage) :=
  match st.manifestCache, st.masterKeyCache with
  | some m, some key =>
    match m.files.find? (fun f => f.fileId == fileId) with
    | none => .error "File not found"
    | some _ =>
      let m2 := { m with
        files := updateFirst (fun f => f.fileId == fileId)
          (fun f => { f with fileName := newName }) m.files
        updatedAt := now }
      .ok (⟨some m2, some key⟩, storePut sto .manifestKey (encryptManifest m2 key iv))
  | _, _ => .error "Manifest not unlocked"

/-- moveFileToFolder: find the entry (throwing when absent), set its
folderId, stamp updatedAt, seal and upload. -/
def moveFileToFolder (st : MState) (sto : Storage) (fileId : String)
    (folderId : Option String) (now : Nat) (iv : List Nat) :
    Except String (MState × Storage) :=
  match st.manifestCache, st.masterKeyCache with
  | some m, some key =>
    match m.files.find? (fun f => f.fileId == fileId) with
    | none => .error "File not found"
    | some _ =>
      let m2 := { m with
        files := updateFirst (fun f => f.fileId == fileId)
          (fun f => { f with folderId := folderId }) m.files
        updatedAt := now }
      .ok (⟨some m2, some key⟩, storePut sto .manifestKey (encryptManifest m2 key iv))
  | _, _ => .error "Manifest not unlocked"

/-- moveFilesToFolder: set folderId on every entry whose id is in the set,
stamp updatedAt, seal and upload (no existence check). -/
def moveFilesToFolder (st : MState) (sto : Storage) (fileIds : List String)
    (folderId : Option String) (now : Nat) (iv : List Nat) :
    Except String (MState × Storage) :=
  match st.manifestCache, st.masterKeyCache with
  | some m, some key =>
    let m2 := { m with
      files := m.files.map
        (fun f => if fileIds.contains f.fileId then { f with folderId := folderId } else f)
      updatedAt := now }
    .ok (⟨some m2, some key⟩, storePut sto .manifestKey (encryptManifest m2 key iv))
  | _, _ => .error "Manifest not unlocked"

/-- deleteFolder: with deleteContents, drop the member files (collecting
their ids); otherwise reparent them to the root by clearing folderId. Then
drop the folder itself, stamp updatedAt, seal and upload, and return the
deleted file ids. Only the folder with the given id and the files directly
inside it are touched. -/
def deleteFolder (st : MState) (sto : Storage) (folderId : String)
    (deleteContents : Bool) (now : Nat) (iv : List Nat) :
    Except String (MState × Storage × List String) :=
  match st.manifestCache, st.masterKeyCache with
  | some m, some key =>
    let filesInFolder := m.files.filter (fun f => f.folderId == some folderId)
    let deletedFileIds := if deleteContents then filesInFolder.map (·.fileId) else []
    let newFiles :=
      if deleteContents then
        m.files.filter (fun f => !(f.folderId == some folderId))
      else
        m.files.map
          (fun f => if f.folderId == some folderId then { f with folderId := none } else f)
    let m2 := { m with
      files := newFiles
      folders := m.folders.filter (fun f => !(f.id == folderId))
      updatedAt := now }
    .ok (⟨some m2, some key⟩, storePut sto .manifestKey (encryptManifest m2 key iv),
         deletedFileIds)
  | _, _ => .error "Manifest not unlocked"

/-- Helper of copyFilesToFolder: append " (copy)" before the extension
(String.lastIndexOf of the dot), or at the end when there is no dot. -/
def lastDotIdx : List Char → Option Nat
  | [] => none
  | c :: cs =>
    match lastDotIdx cs with
    | some i => some (i + 1)
    | none => if c = '.' then some 0 else none

/-- addCopySuffix from manifest.ts. -/
def addCopySuffix (fileName : String) : String :=
  match lastDotIdx fileName.toList with
  | none => fileName ++ " (copy)"
  | some i =>
    String.mk (fileName.toList.take i) ++ " (copy)" ++ String.mk (fileName.toList.drop i)

/-- The for-loop of copyFilesToFolder: for each source id, look the entry up
in the (growing) files list, skipping unknown ids; download the ciphertext
blob, upload it unchanged under a fresh UUID, and append the duplicated
entry — new id, target folder, fresh uploadedAt, "(copy)" suffix exactly
when the target equals the source folder, all other fields (including the
per-file key material) carried over. Returns the updated store, files list
and the new ids in order. -/
def copyFilesLoop (sto : Storage) (files : List EncryptedFileInfo)
    (fileIds : List String) (uuid : Nat → String) (k : Nat)
    (target : Option String) (now : Nat) :
    Except String (Storage × List EncryptedFileInfo × List String) :=
  match fileIds with
  | [] => .ok (sto, files, [])
  | fid :: rest =>
    match files.find? (fun f => f.fileId == fid) with
    | none => copyFilesLoop sto files rest uuid k target now
    | some orig =>
      match sto (.fileKey fid) with
      | none => .error "Failed to download file"
      | some blob =>
        let newId := uuid k
        let newFile := { orig with
          fileId := newId
          folderId := target
          uploadedAt := now
          fileName := if target == orig.folderId then addCopySuffix orig.fileName
                      else orig.fileName }
        match copyFilesLoop (storePut sto (.fileKey newId) blob)
            (files ++ [newFile]) rest uuid (k + 1) target now with
        | .ok (sto2, files2, ids2) => .ok (sto2, files2, newId :: ids2)
        | .error e => .error e

/-- copyFilesToFolder: run the loop over the source ids; when at least one
file was copied, stamp updatedAt and seal and upload the manifest, else
leave the document untouched. Returns the new file ids. -/
def copyFilesToFolder (st : MState) (sto : Storage) (fileIds : List String)
    (targetFolderId : Option String) (uuid : Nat → String) (now : Nat)
    (iv : List Nat) : Except String (MState × Storage × List String) :=
  match st.manifestCache, st.masterKeyCache with
  | some m, some key =>
    match copyFilesLoop sto m.files fileIds uuid 0 targetFolderId now with
    | .error e => .error e
    | .ok (sto2, files2, newIds) =>
      if newIds.isEmpty then
        .ok (⟨some { m with files := files2 }, some key⟩, sto2, newIds)
      else
        let m2 := { m with files := files2, updatedAt := now }
        .ok (⟨some m2, some key⟩,
             storePut sto2 .manifestKey (encryptManifest m2 key iv), newIds)
  | _, _ => .error "Manifest not unlocked"

/-- The mutate family of the ManifestStore, as one dispatchable type. -/
inductive MutOp where
  | addFile (info : EncryptedFileInfo)
  | removeFile (fileId : String)
  | renameFile (fileId newName : String)
  | toggleFavorite (fileId : String)
  | createFolder (name : String) (parentId color : Option String)
  | renameFolder (folderId newName : String)
  | deleteFolder (folderId : String) (deleteContents : Bool)
  | moveFile (fileId : String) (folderId : Option String)
  | moveFiles (fileIds : List String) (folderId : Option String)
  | copyFiles (fileIds : List String) (targetFolderId : Option String)

/-- Dispatch one mutation, forgetting the operation-specific return value. -/
def applyMutation (op : MutOp) (st : MState) (sto : Storage) (now : Nat)
    (iv : List Nat) (uuid : Nat → String) : Except String (MState × Storage) :=
  match op with
  | .addFile info => addFileToManifest st sto info now iv
  | .removeFile fid => removeFileFromManifest st sto fid now iv
  | .renameFile fid n => renameFile st sto fid n now iv
  | .toggleFavorite fid => (toggleFileFavorite st sto fid now iv).map (fun r => (r.1, r.2.1))
  | .createFolder n p c => (createFolder st sto n p c now iv uuid).map (fun r => (r.1, r.2.1))
  | .renameFolder fid n => renameFolder st sto fid n now iv
  | .deleteFolder fid dc => (deleteFolder st sto fid dc now iv).map (fun r => (r.1, r.2.1))
  | .moveFile fid dest => moveFileToFolder st sto fid dest now iv
  | .moveFiles ids dest => moveFilesToFolder st sto ids dest now iv
  | .copyFiles ids dest => (copyFilesToFolder st sto ids dest uuid now iv).map (fun r => (r.1, r.2.1))

/-- A mutation that actually stamps updatedAt on success: every operation
except a copy that copies zero files (no source id present in the
manifest). -/
def effectiveMutation (op : MutOp) (m : Manifest) : Prop :=
  match op with
  | .copyFiles ids _ => ∃ i ∈ ids, (m.files.find? (fun f => f.fileId == i)).isSome
  | _ => True

instance {ε α : Type} [DecidableEq ε] [DecidableEq α] : DecidableEq (Except ε α) :=
  fun a b =>
    match a, b with
    | .error e1, .error e2 =>
      if h : e1 = e2 then isTrue (congrArg Except.error h)
      else isFalse (fun hh => h (Except.error.inj hh))
    | .ok x, .ok y =>
      if h : x = y then isTrue (congrArg Except.ok h)
      else isFalse (fun hh => h (Except.ok.inj hh))
    | .error _, .ok _ => isFalse (fun hh => Except.noConfusion hh)
    | .ok _, .error _ => isFalse (fun hh => Except.noConfusion hh)

/-- Concrete file entry used by witnesses: file "f1" named "a.txt" in folder
"D". -/
def fileF1 : EncryptedFileInfo :=
  ⟨"f1", "a.txt", 10, "text/plain", some "D", false, 100, [7], [8]⟩

/-- Concrete manifest used by witnesses: one file in folder "D", a subfolder
"S" under "D", updatedAt 5. -/
def manifestEx : Manifest :=
  ⟨1, [fileF1], [⟨"D", "Docs", none, 0, none⟩, ⟨"S", "Sub", some "D", 1, none⟩], 0, 5⟩

/-- Concrete master key used by witnesses. -/
def keyEx : MKey :=
  .hkdf [1] (List.replicate 16 0) "manifest-encryption"

/-- Concrete storage used by witnesses: only file "f1" has a content blob. -/
def storageEx : Storage :=
  fun k => if k = .fileKey "f1" then some (.raw [9, 9]) else none

/-- Concrete UUID supply used by witnesses. -/
def uuidEx : Nat → String :=
  fun _ => "n1"

instance : IsTotal EncryptedFileInfo newerFirst :=
  ⟨fun a b => Nat.le_total b.uploadedAt a.uploadedAt⟩

instance : IsTrans EncryptedFileInfo newerFirst :=
  ⟨fun _ _ _ h1 h2 => Nat.le_trans h2 h1⟩

/-- Concrete second file entry used by the sorting witness: uploaded later
than fileF1. -/
def fileF2 : EncryptedFileInfo :=
  ⟨"f2", "b.txt", 20, "text/plain", none, true, 200, [5], [6]⟩

/-- Concrete two-file manifest used by the sorting witness, stored with the
older file first. -/
def manifestTwo : Manifest :=
  ⟨1, [fileF1, fileF2], [], 0, 5⟩

/-- C7: master-key derivation is a deterministic function of the private key
alone: two calls under arbitrary (distinct) entropy-pool states return the
identical key, and that key is HKDF of the key bytes with the fixed all-zero
16-byte salt and the fixed context string, so no randomness or persisted
secret influences it. -/
theorem derive_master_key_deterministic (K : String) (g1 g2 : Gen) :
    (deriveManifestKeyFromPrivateKey K g1).1 = (deriveManifestKeyFromPrivateKey K g2).1 ∧
    (deriveManifestKeyFromPrivateKey K g1).1
      = MKey.hkdf (hexToBytes K) (List.replicate 16 0) "manifest-encryption" :=
  ⟨rfl, rfl⟩

/-- C6: importing a password-protected export with the same password recovers
the original pair, for every pair with nonempty key fields (the data model
fixes them as 64-hex-character strings) and every password, including the
empty password, on which exportKeyPair falls back to the plaintext format. -/
theorem backup_roundtrip (sk pk pw : String) (g : Gen)
    (hsk : sk ≠ "") (hpk : pk ≠ "") :
    importKeyPair (exportKeyPair sk pk (some pw) g).1 (some pw)
      = .ok ⟨sk, pk⟩ := by
  by_cases hpw : pw = ""
  · subst hpw
    simp [exportKeyPair, truthyStr, importKeyPair, hsk, hpk]
  · simp [exportKeyPair, truthyStr, importKeyPair, hpw, aesGcmSeal, aesGcmOpen]

/-- C6 witness at a concrete pair, password and entropy pool. -/
theorem backup_roundtrip_witness :
    importKeyPair (exportKeyPair "ab" "cd" (some "pw") [1, 2, 3]).1 (some "pw")
      = .ok ⟨"ab", "cd"⟩ :=
  backup_roundtrip "ab" "cd" "pw" [1, 2, 3] (by decide) (by decide)

/-- C2 counterexample: importing a password-encrypted backup with no password
at all fails with the malformed-format error ("Invalid key file format"), not
the wrong-password error, because the encrypted-and-password guard is false
and the blob has no plaintext key fields. -/
theorem import_no_password_not_wrong_password :
    importKeyPair (exportKeyPair "ab" "cd" (some "pw") [1, 2, 3]).1 none
        = .error .malformedBackup ∧
    importKeyPair (exportKeyPair "ab" "cd" (some "pw") [1, 2, 3]).1 none
        ≠ .error .wrongPassword := by
  constructor
  · rfl
  · decide

/-- C2 amended: importKeyPair fails with the wrong-password error exactly on
an authenticated-decryption tag failure — in particular on importing a
password-encrypted export with a different (truthy) password — while an
encrypted blob with no password supplied fails with the malformed-format
error instead. -/
theorem import_wrong_password_errors (sk pk pw wrong : String) (g : Gen)
    (hpw : pw ≠ "") (hw : wrong ≠ "") (hne : wrong ≠ pw) :
    importKeyPair (exportKeyPair sk pk (some pw) g).1 (some wrong)
        = .error .wrongPassword ∧
    importKeyPair (exportKeyPair sk pk (some pw) g).1 none
        = .error .malformedBackup := by
  have hne2 : pw ≠ wrong := fun h => hne h.symm
  constructor
  · simp [exportKeyPair, truthyStr, importKeyPair, hpw, hw, aesGcmSeal, aesGcmOpen, hne2]
  · simp [exportKeyPair, truthyStr, importKeyPair, hpw]

/-- C2 witness at a concrete pair, passwords and entropy pool. -/
theorem import_wrong_password_errors_witness :
    importKeyPair (exportKeyPair "ab" "cd" (some "pw") [1, 2, 3]).1 (some "wr")
        = .error .wrongPassword ∧
    importKeyPair (exportKeyPair "ab" "cd" (some "pw") [1, 2, 3]).1 none
        = .error .malformedBackup :=
  import_wrong_password_errors "ab" "cd" "pw" "wr" [1, 2, 3]
    (by decide) (by decide) (by decide)

/-- C1 counterexample: with the manifest unlocked (master key and a
known-good manifest cached) and the fetch failing, syncManifest returns null
— not the previous known-good manifest the claim says it returns. -/
theorem sync_error_returns_null :
    (syncManifest ⟨some manifestEx, some keyEx⟩ (.error ())).1
      ≠ (MState.mk (some manifestEx) (some keyEx)).manifestCache := by
  decide

/-- C1 amended: once unlocked, syncManifest is total (every error is caught,
nothing is raised); on any failing sync — transport failure or decrypt
failure — it returns null and leaves the cached state, including the cached
known-good manifest, unchanged. -/
theorem sync_soft_fails (st : MState) (key : MKey) (fetch : Except Unit Blob)
    (hk : st.masterKeyCache = some key)
    (hfail : ∀ b, fetch = .ok b → decryptManifest b key = none) :
    syncManifest st fetch = (none, st) := by
  cases fetch with
  | error e => simp [syncManifest, hk]
  | ok b => simp [syncManifest, hk, hfail b rfl]

/-- C1 witness: a concrete unlocked state with a failing fetch. -/
theorem sync_soft_fails_witness :
    syncManifest ⟨some manifestEx, some keyEx⟩ (.error ())
      = (none, ⟨some manifestEx, some keyEx⟩) :=
  sync_soft_fails ⟨some manifestEx, some keyEx⟩ keyEx (.error ()) rfl
    (fun b hb => by cases hb)

/-- C10: on a populated cache, getFilesFromManifest returns a fresh list
holding exactly the manifest's file entries (a permutation), pairwise sorted
by uploadedAt descending, and leaves the cached state — in particular the
stored files collection and its insertion order — unchanged. -/
theorem get_files_sorted_fresh (st : MState) (m : Manifest)
    (hm : st.manifestCache = some m) :
    (getFilesFromManifest st).1.Perm m.files ∧
    List.Sorted newerFirst (getFilesFromManifest st).1 ∧
    (getFilesFromManifest st).2 = st := by
  refine ⟨?_, ?_, rfl⟩
  · simp only [getFilesFromManifest, hm]
    exact List.perm_insertionSort newerFirst m.files
  · simp only [getFilesFromManifest, hm]
    exact List.sorted_insertionSort newerFirst m.files

/-- C10 witness: a concrete two-file cache, older entry stored first. -/
theorem get_files_sorted_fresh_witness :
    (getFilesFromManifest ⟨some manifestTwo, some keyEx⟩).1.Perm manifestTwo.files ∧
    List.Sorted newerFirst (getFilesFromManifest ⟨some manifestTwo, some keyEx⟩).1 ∧
    (getFilesFromManifest ⟨some manifestTwo, some keyEx⟩).2
      = ⟨some manifestTwo, some keyEx⟩ :=
  get_files_sorted_fresh ⟨some manifestTwo, some keyEx⟩ manifestTwo rfl

/-- C8: removing a fileId that does not occur in the manifest does not raise
a not-found error: the call succeeds, the file list is unchanged, updatedAt
still advances to the (later) clock reading, and the re-sealed whole document
is uploaded to the manifest key. -/
theorem remove_missing_file_soft (st : MState) (sto : Storage) (m : Manifest)
    (key : MKey) (fid : String) (now : Nat) (iv : List Nat)
    (hm : st.manifestCache = some m) (hk : st.masterKeyCache = some key)
    (habsent : ∀ f ∈ m.files, f.fileId ≠ fid)
    (hclock : m.updatedAt < now) :
    ∃ st2 sto2,
      removeFileFromManifest st sto fid now iv = .ok (st2, sto2) ∧
      st2.manifestCache = some { m with updatedAt := now } ∧
      m.updatedAt < now ∧
      sto2 StoreKey.manifestKey
        = some (encryptManifest { m with updatedAt := now } key iv) := by
  have hfilter : m.files.filter (fun f => f.fileId != fid) = m.files := by
    refine List.filter_eq_self.mpr (fun a ha => ?_)
    simpa using habsent a ha
  refine ⟨⟨some { m with updatedAt := now }, some key⟩,
          storePut sto .manifestKey (encryptManifest { m with updatedAt := now } key iv),
          ?_, rfl, hclock, ?_⟩
  · simp only [removeFileFromManifest, hm, hk, hfilter]
  · simp [storePut]

/-- C8 witness: removing absent id "zz" from a concrete unlocked state. -/
theorem remove_missing_file_soft_witness :
    ∃ st2 sto2,
      removeFileFromManifest ⟨some manifestEx, some keyEx⟩ storageEx "zz" 6 [2]
        = .ok (st2, sto2) ∧
      st2.manifestCache = some { manifestEx with updatedAt := 6 } ∧
      manifestEx.updatedAt < 6 ∧
      sto2 StoreKey.manifestKey
        = some (encryptManifest { manifestEx with updatedAt := 6 } keyEx [2]) :=
  remove_missing_file_soft ⟨some manifestEx, some keyEx⟩ storageEx manifestEx
    keyEx "zz" 6 [2] rfl rfl (by decide) (by decide)

/-- Finding by a predicate commutes with mapping a function that preserves
the predicate. -/
theorem find?_map_pred_invariant {α : Type} (l : List α) (p : α → Bool) (g : α → α)
    (hpg : ∀ x, p (g x) = p x) :
    (l.map g).find? p = (l.find? p).map g := by
  induction l with
  | nil => rfl
  | cons x xs ih =>
    simp only [List.map_cons, List.find?]
    rw [hpg x]
    cases hx : p x <;> simp [hx, ih]

/-- C5: deleting a folder with deleteContents = false removes exactly that
folder from the folder list, keeps every file entry (the file list is a map
over the old one), reparenting the members to the root by clearing folderId,
reports no deleted file ids, and afterwards every fileId resolves to the
same entry as before up to the cleared folderId — so each former member
remains individually retrievable. -/
theorem delete_folder_reparents (st : MState) (sto : Storage) (m : Manifest)
    (key : MKey) (F : String) (now : Nat) (iv : List Nat)
    (hm : st.manifestCache = some m) (hk : st.masterKeyCache = some key) :
    ∃ st2 sto2,
      deleteFolder st sto F false now iv = .ok (st2, sto2, []) ∧
      st2.manifestCache.map Manifest.folders
        = some (m.folders.filter (fun f => !(f.id == F))) ∧
      st2.manifestCache.map Manifest.files
        = some (m.files.map
            (fun f => if f.folderId == some F then { f with folderId := none } else f)) ∧
      ∀ fid, getFileFromManifest st2 fid
        = (m.files.find? (fun f => f.fileId == fid)).map
            (fun f => if f.folderId == some F then { f with folderId := none } else f) := by
  refine ⟨⟨some { m with
        files := m.files.map
          (fun f => if f.folderId == some F then { f with folderId := none } else f)
        folders := m.folders.filter (fun f => !(f.id == F))
        updatedAt := now }, some key⟩,
      storePut sto .manifestKey (encryptManifest { m with
        files := m.files.map
          (fun f => if f.folderId == some F then { f with folderId := none } else f)
        folders := m.folders.filter (fun f => !(f.id == F))
        updatedAt := now } key iv),
      ?_, rfl, rfl, ?_⟩
  · simp [deleteFolder, hm, hk]
  · intro fid
    simp only [getFileFromManifest]
    exact find?_map_pred_invariant m.files (fun f => f.fileId == fid)
      (fun f => if f.folderId == some F then { f with folderId := none } else f)
      (fun x => by cases hx : x.folderId == some F <;> simp [hx])

/-- C5 witness: deleting folder "D" (containing file "f1") without content
deletion on a concrete unlocked state. -/
theorem delete_folder_reparents_witness :
    ∃ st2 sto2,
      deleteFolder ⟨some manifestEx, some keyEx⟩ storageEx "D" false 7 [3]
        = .ok (st2, sto2, []) ∧
      st2.manifestCache.map Manifest.folders
        = some (manifestEx.folders.filter (fun f => !(f.id == "D"))) ∧
      st2.manifestCache.map Manifest.files
        = some (manifestEx.files.map
            (fun f => if f.folderId == some "D" then { f with folderId := none } else f)) ∧
      ∀ fid, getFileFromManifest st2 fid
        = (manifestEx.files.find? (fun f => f.fileId == fid)).map
            (fun f => if f.folderId == some "D" then { f with folderId := none } else f) :=
  delete_folder_reparents ⟨some manifestEx, some keyEx⟩ storageEx manifestEx
    keyEx "D" 7 [3] rfl rfl

/-- C9: deleteFolder is non-recursive, in either deleteContents mode: the
folder list loses exactly the folder with the given id; every other folder —
in particular a subfolder whose parentId is the deleted id — survives
verbatim, its parentId now referencing a folder that no longer exists; and
every file not directly inside the deleted folder, including files in such
subfolders, is carried over unchanged. -/
theorem delete_folder_nonrecursive (st : MState) (sto : Storage) (m : Manifest)
    (key : MKey) (F : String) (dc : Bool) (now : Nat) (iv : List Nat)
    (hm : st.manifestCache = some m) (hk : st.masterKeyCache = some key) :
    ∃ st2 sto2 deleted m2,
      deleteFolder st sto F dc now iv = .ok (st2, sto2, deleted) ∧
      st2.manifestCache = some m2 ∧
      m2.folders = m.folders.filter (fun f => !(f.id == F)) ∧
      (∀ g ∈ m.folders, g.id ≠ F → g ∈ m2.folders) ∧
      (∀ g ∈ m2.folders, g.id ≠ F) ∧
      (∀ e ∈ m.files, e.folderId ≠ some F → e ∈ m2.files) := by
  have hfoldmem : ∀ g ∈ m.folders, g.id ≠ F →
      g ∈ m.folders.filter (fun f => !(f.id == F)) := by
    intro g hg hgF
    exact List.mem_filter.mpr ⟨hg, by simpa using hgF⟩
  have hfoldonly : ∀ g ∈ m.folders.filter (fun f => !(f.id == F)), g.id ≠ F := by
    intro g hg
    have := (List.mem_filter.mp hg).2
    simpa using this
  cases dc with
  | false =>
    refine ⟨⟨some { m with
          files := m.files.map
            (fun f => if f.folderId == some F then { f with folderId := none } else f)
          folders := m.folders.filter (fun f => !(f.id == F))
          updatedAt := now }, some key⟩,
        storePut sto .manifestKey (encryptManifest { m with
          files := m.files.map
            (fun f => if f.folderId == some F then { f with folderId := none } else f)
          folders := m.folders.filter (fun f => !(f.id == F))
          updatedAt := now } key iv),
        [], _, ?_, rfl, rfl, hfoldmem, hfoldonly, ?_⟩
    · simp [deleteFolder, hm, hk]
    · intro e he hne
      refine List.mem_map.mpr ⟨e, he, ?_⟩
      have hb : (e.folderId == some F) = false := by simpa using hne
      simp [hb]
  | true =>
    refine ⟨⟨some { m with
          files := m.files.filter (fun f => !(f.folderId == some F))
          folders := m.folders.filter (fun f => !(f.id == F))
          updatedAt := now }, some key⟩,
        storePut sto .manifestKey (encryptManifest { m with
          files := m.files.filter (fun f => !(f.folderId == some F))
          folders := m.folders.filter (fun f => !(f.id == F))
          updatedAt := now } key iv),
        (m.files.filter (fun f => f.folderId == some F)).map (·.fileId),
        _, ?_, rfl, rfl, hfoldmem, hfoldonly, ?_⟩
    · simp [deleteFolder, hm, hk]
    · intro e he hne
      exact List.mem_filter.mpr ⟨he, by simpa using hne⟩

/-- C9 witness: deleting folder "D" while subfolder "S" has parentId "D". -/
theorem delete_folder_nonrecursive_witness :
    ∃ st2 sto2 deleted m2,
      deleteFolder ⟨some manifestEx, some keyEx⟩ storageEx "D" false 7 [3]
        = .ok (st2, sto2, deleted) ∧
      st2.manifestCache = some m2 ∧
      m2.folders = manifestEx.folders.filter (fun f => !(f.id == "D")) ∧
      (∀ g ∈ manifestEx.folders, g.id ≠ "D" → g ∈ m2.folders) ∧
      (∀ g ∈ m2.folders, g.id ≠ "D") ∧
      (∀ e ∈ manifestEx.files, e.folderId ≠ some "D" → e ∈ m2.files) :=
  delete_folder_nonrecursive ⟨some manifestEx, some keyEx⟩ storageEx manifestEx
    keyEx "D" false 7 [3] rfl rfl

/-- C4: copying one file whose entry is found in the manifest succeeds and
yields exactly one new id — fresh, hence distinct from the source id; the
manifest gains exactly one entry carrying the new id, the target folder, and
the source entry's per-file key material unchanged, named with the "(copy)"
suffix exactly when the target equals the source folder and verbatim
otherwise; the content blob stored under the new id is byte-identical to the
source blob, which is left in place; and on the claim's concrete name,
addCopySuffix "a.txt" is "a (copy).txt". -/
theorem copy_file_semantics (st : MState) (sto : Storage) (m : Manifest)
    (key : MKey) (f1 : String) (entry : EncryptedFileInfo)
    (target : Option String) (uuid : Nat → String) (now : Nat)
    (iv : List Nat) (blob : Blob)
    (hm : st.manifestCache = some m) (hk : st.masterKeyCache = some key)
    (hfind : m.files.find? (fun f => f.fileId == f1) = some entry)
    (hblob : sto (.fileKey f1) = some blob)
    (hfresh : ∀ f ∈ m.files, uuid 0 ≠ f.fileId) :
    ∃ st2 sto2,
      copyFilesToFolder st sto [f1] target uuid now iv
        = .ok (st2, sto2, [uuid 0]) ∧
      uuid 0 ≠ f1 ∧
      st2.manifestCache.map Manifest.files
        = some (m.files ++ [{ entry with
            fileId := uuid 0
            folderId := target
            uploadedAt := now
            fileName := if target == entry.folderId then addCopySuffix entry.fileName
                        else entry.fileName }]) ∧
      sto2 (.fileKey (uuid 0)) = some blob ∧
      sto2 (.fileKey f1) = sto (.fileKey f1) ∧
      addCopySuffix "a.txt" = "a (copy).txt" := by
  have hmem : entry ∈ m.files := List.mem_of_find?_eq_some hfind
  have hpred := List.find?_some hfind
  have hid : entry.fileId = f1 := by simpa using hpred
  have hne : uuid 0 ≠ f1 := hid ▸ hfresh entry hmem
  have hne2 : f1 ≠ uuid 0 := Ne.symm hne
  refine ⟨⟨some { m with
        files := m.files ++ [{ entry with
          fileId := uuid 0
          folderId := target
          uploadedAt := now
          fileName := if target == entry.folderId then addCopySuffix entry.fileName
                      else entry.fileName }]
        updatedAt := now }, some key⟩,
      storePut (storePut sto (.fileKey (uuid 0)) blob) .manifestKey
        (encryptManifest { m with
          files := m.files ++ [{ entry with
            fileId := uuid 0
            folderId := target
            uploadedAt := now
            fileName := if target == entry.folderId then addCopySuffix entry.fileName
                        else entry.fileName }]
          updatedAt := now } key iv),
      ?_, hne, rfl, ?_, ?_, by decide⟩
  · simp [copyFilesToFolder, hm, hk, copyFilesLoop, hfind, hblob]
  · simp [storePut]
  · simp [storePut, hne2]

/-- C4 witness: copying "f1" (named "a.txt") into its own folder "D" on a
concrete unlocked state; the duplicated entry is named "a (copy).txt". -/
theorem copy_file_semantics_witness :
    ∃ st2 sto2,
      copyFilesToFolder ⟨some manifestEx, some keyEx⟩ storageEx ["f1"]
          (some "D") uuidEx 50 [2]
        = .ok (st2, sto2, [uuidEx 0]) ∧
      uuidEx 0 ≠ "f1" ∧
      st2.manifestCache.map Manifest.files
        = some (manifestEx.files ++ [{ fileF1 with
            fileId := uuidEx 0
            folderId := some "D"
            uploadedAt := 50
            fileName := if (some "D" : Option String) == fileF1.folderId
                        then addCopySuffix fileF1.fileName
                        else fileF1.fileName }]) ∧
      sto2 (.fileKey (uuidEx 0)) = some (.raw [9, 9]) ∧
      sto2 (.fileKey "f1") = storageEx (.fileKey "f1") ∧
      addCopySuffix "a.txt" = "a (copy).txt" :=
  copy_file_semantics ⟨some manifestEx, some keyEx⟩ storageEx manifestEx keyEx
    "f1" fileF1 (some "D") uuidEx 50 [2] (.raw [9, 9]) rfl rfl
    (by decide) (by decide) (by decide)

/-- The copy loop returns at least one new id whenever some requested source
id is found in the files list. -/
theorem copyFilesLoop_ids_ne_nil (fileIds : List String) (sto : Storage)
    (files : List EncryptedFileInfo) (uuid : Nat → String) (k : Nat)
    (target : Option String) (now : Nat) (sto2 : Storage)
    (files2 : List EncryptedFileInfo) (ids2 : List String)
    (hok : copyFilesLoop sto files fileIds uuid k target now = .ok (sto2, files2, ids2))
    (hsome : ∃ i ∈ fileIds, (files.find? (fun f => f.fileId == i)).isSome) :
    ids2 ≠ [] := by
  induction fileIds generalizing sto files k sto2 files2 ids2 with
  | nil =>
    obtain ⟨i, hi, _⟩ := hsome
    cases hi
  | cons fid rest ih =>
    obtain ⟨i, hi, hfound⟩ := hsome
    simp only [copyFilesLoop] at hok
    cases hfind : files.find? (fun f => f.fileId == fid) with
    | none =>
      simp only [hfind] at hok
      rcases List.mem_cons.mp hi with rfl | hi2
      · rw [hfind] at hfound
        simp at hfound
      · exact ih _ _ _ _ _ _ hok ⟨i, hi2, hfound⟩
    | some orig =>
      simp only [hfind] at hok
      cases hsto : sto (.fileKey fid) with
      | none =>
        simp only [hsto] at hok
        exact Except.noConfusion hok
      | some blob =>
        simp only [hsto] at hok
        split at hok
        · simp only [Except.ok.injEq, Prod.mk.injEq] at hok
          obtain ⟨h1, h2, h3⟩ := hok
          subst h3
          exact List.cons_ne_nil _ _
        · exact Except.noConfusion hok

/-- C3 counterexample: a mutation performed in the same millisecond as the
previous one (clock reading 5, equal to the manifest's updatedAt 5) succeeds
yet leaves updatedAt at 5 — not strictly greater than before. -/
theorem mutation_same_clock_no_increase :
    ((applyMutation (.addFile fileF2) ⟨some manifestEx, some keyEx⟩ storageEx
        5 [2] uuidEx).toOption.map (fun r => r.1.manifestCache.map Manifest.updatedAt))
      = some (some 5) ∧
    manifestEx.updatedAt = 5 := by
  constructor
  · rfl
  · rfl

/-- C3 amended: whenever the clock reading at the mutation strictly exceeds
the manifest's current updatedAt, every successful mutation of the family —
add/remove/rename file, toggle favorite, create/rename/delete folder,
move/copy files — leaves the cached manifest with a strictly larger
updatedAt (equal to that clock reading); for copyFilesToFolder this requires
that at least one requested source file exists, since a copy of zero files
leaves the document untouched. -/
theorem mutation_advances_updatedAt (op : MutOp) (st : MState) (sto : Storage)
    (now : Nat) (iv : List Nat) (uuid : Nat → String) (m : Manifest)
    (r : MState × Storage)
    (hm : st.manifestCache = some m)
    (hclock : m.updatedAt < now)
    (heff : effectiveMutation op m)
    (hok : applyMutation op st sto now iv uuid = .ok r) :
    ∃ m2, r.1.manifestCache = some m2 ∧ m.updatedAt < m2.updatedAt := by
  cases hmk : st.masterKeyCache with
  | none =>
    exfalso
    cases op <;>
      simp [applyMutation, addFileToManifest, removeFileFromManifest, renameFile,
        toggleFileFavorite, createFolder, renameFolder, deleteFolder,
        moveFileToFolder, moveFilesToFolder, copyFilesToFolder, Except.map,
        hm, hmk] at hok
  | some key =>
    cases op with
    | addFile info =>
      simp only [applyMutation, addFileToManifest, hm, hmk, Except.ok.injEq] at hok
      subst hok
      exact ⟨_, rfl, by simpa using hclock⟩
    | removeFile fid =>
      simp only [applyMutation, removeFileFromManifest, hm, hmk, Except.ok.injEq] at hok
      subst hok
      exact ⟨_, rfl, by simpa using hclock⟩
    | renameFile fid n =>
      cases hfind : m.files.find? (fun f => f.fileId == fid) with
      | none =>
        simp [applyMutation, renameFile, hm, hmk, hfind] at hok
      | some x =>
        simp only [applyMutation, renameFile, hm, hmk, hfind, Except.ok.injEq] at hok
        subst hok
        exact ⟨_, rfl, by simpa using hclock⟩
    | toggleFavorite fid =>
      cases hfind : m.files.find? (fun f => f.fileId == fid) with
      | none =>
        simp [applyMutation, toggleFileFavorite, Except.map, hm, hmk, hfind] at hok
      | some x =>
        simp only [applyMutation, toggleFileFavorite, hm, hmk, hfind, Except.map,
          Except.ok.injEq] at hok
        subst hok
        exact ⟨_, rfl, by simpa using hclock⟩
    | createFolder n p c =>
      simp only [applyMutation, createFolder, hm, hmk, Except.map, Except.ok.injEq] at hok
      subst hok
      exact ⟨_, rfl, by simpa using hclock⟩
    | renameFolder fid n =>
      cases hfind : m.folders.find? (fun f => f.id == fid) with
      | none =>
        simp [applyMutation, renameFolder, hm, hmk, hfind] at hok
      | some x =>
        simp only [applyMutation, renameFolder, hm, hmk, hfind, Except.ok.injEq] at hok
        subst hok
        exact ⟨_, rfl, by simpa using hclock⟩
    | deleteFolder fid dc =>
      simp only [applyMutation, deleteFolder, hm, hmk, Except.map, Except.ok.injEq] at hok
      subst hok
      exact ⟨_, rfl, by simpa using hclock⟩
    | moveFile fid dest =>
      cases hfind : m.files.find? (fun f => f.fileId == fid) with
      | none =>
        simp [applyMutation, moveFileToFolder, hm, hmk, hfind] at hok
      | some x =>
        simp only [applyMutation, moveFileToFolder, hm, hmk, hfind, Except.ok.injEq] at hok
        subst hok
        exact ⟨_, rfl, by simpa using hclock⟩
    | moveFiles ids dest =>
      simp only [applyMutation, moveFilesToFolder, hm, hmk, Except.ok.injEq] at hok
      subst hok
      exact ⟨_, rfl, by simpa using hclock⟩
    | copyFiles ids dest =>
      simp only [applyMutation] at hok
      cases hcp : copyFilesToFolder st sto ids dest uuid now iv with
      | error e =>
        rw [hcp] at hok
        exact Except.noConfusion hok
      | ok t =>
        rw [hcp] at hok
        simp only [Except.map, Except.ok.injEq] at hok
        simp only [copyFilesToFolder, hm, hmk] at hcp
        cases hloop : copyFilesLoop sto m.files ids uuid 0 dest now with
        | error e =>
          simp only [hloop] at hcp
          exact Except.noConfusion hcp
        | ok w =>
          obtain ⟨s2, f2, nids⟩ := w
          simp only [hloop] at hcp
          have hne : nids ≠ [] :=
            copyFilesLoop_ids_ne_nil ids sto m.files uuid 0 dest now s2 f2 nids
              hloop heff
          rw [if_neg (by simpa using hne)] at hcp
          simp only [Except.ok.injEq] at hcp
          subst hcp
          subst hok
          exact ⟨_, rfl, by simpa using hclock⟩

/-- C3 witness: adding a file at clock reading 6, strictly after the
manifest's updatedAt 5, on a concrete unlocked state. -/
theorem mutation_advances_updatedAt_witness :
    ∃ m2,
      ((⟨some { manifestEx with
            files := manifestEx.files ++ [fileF2]
            updatedAt := 6 },
          some keyEx⟩ : MState),
        storePut storageEx .manifestKey
          (encryptManifest { manifestEx with
            files := manifestEx.files ++ [fileF2]
            updatedAt := 6 } keyEx [2])).1.manifestCache = some m2 ∧
      manifestEx.updatedAt < m2.updatedAt :=
  mutation_advances_updatedAt (.addFile fileF2) ⟨some manifestEx, some keyEx⟩
    storageEx 6 [2] uuidEx manifestEx
    (⟨some { manifestEx with
        files := manifestEx.files ++ [fileF2]
        updatedAt := 6 },
        some keyEx⟩,
      storePut storageEx .manifestKey
        (encryptManifest { manifestEx with
          files := manifestEx.files ++ [fileF2]
          updatedAt := 6 } keyEx [2]))
    rfl (by decide) trivial rfl
